import Mathlib

/-!
Shallow embedding of the session/room coordination core of
`src/backend/server.js` (a Socket.IO collaborative-drawing server), and
proofs about it.

The server keeps a global mutable table
  `rooms = { drawingId: { users: [{id, username, color}], strokes: [] } }`
and mutates it from the event handlers `join-drawing`, `draw-stroke`,
`cursor-move`, `undo-stroke`, `clear-canvas` and `disconnect`.  We model
the table as an association list with JavaScript-object semantics
(assignment replaces in place or appends, `delete` removes the key), a
socket's ambient room set (`socket.rooms` minus the socket's own id) as a
map from socket id to its current room, and each handler as a pure
function from server state to server state plus a list of emitted events,
each emit carrying the list of recipient socket ids resolved at emission
time (`socket.emit` = unicast to the sender, `socket.to(room).emit` = all
sockets in the room except the sender, `io.to(room).emit` = all sockets
in the room).
-/

/-- Association-list lookup for string-keyed JavaScript objects
(`rooms[drawingId]`). -/
def alookup {α : Type} : List (String × α) → String → Option α
  | [], _ => none
  | (k, v) :: t, k' => if k = k' then some v else alookup t k'

/-- Key assignment (`rooms[drawingId] = v`): replaces the first binding of
the key in place, or appends a new binding, matching JavaScript property
insertion order. -/
def aset {α : Type} : List (String × α) → String → α → List (String × α)
  | [], k, v => [(k, v)]
  | (k', v') :: t, k, v => if k' = k then (k, v) :: t else (k', v') :: aset t k v

/-- Key deletion (`delete rooms[drawingId]`). -/
def aerase {α : Type} (m : List (String × α)) (k : String) : List (String × α) :=
  m.filter (fun p => p.1 ≠ k)

/-- One entry of a room's `users` array: `{ id, username, color }`. -/
structure User where
  id : String
  username : String
  color : String
deriving Repr, DecidableEq

/-- The client payload of a `draw-stroke` event.  Its geometry/style fields
are opaque to the server (collapsed into `payload`); a client may also ship
its own `userId` property, which the server's spread
`{...stroke, userId: socket.id, ...}` overrides. -/
structure ClientStroke where
  payload : String
  userId : Option String
deriving Repr, DecidableEq

/-- One entry of a room's `strokes` array as the server stores it:
the opaque payload plus the server-stamped `userId` and `timestamp`. -/
structure StrokeEntry where
  payload : String
  userId : String
  timestamp : Nat
deriving Repr, DecidableEq

/-- One room: `{ users: [...], strokes: [...] }`. -/
structure Room where
  users : List User
  strokes : List StrokeEntry
deriving Repr, DecidableEq

/-- The server state: the global `rooms` table plus each socket's current
room (`Array.from(socket.rooms).find(r => r !== socket.id)`). -/
structure ServerState where
  rooms : List (String × Room)
  socketRooms : List (String × String)
deriving Repr, DecidableEq

/-- Server→client events. -/
inductive SEvent : Type where
  | roomState (users : List User) (strokes : List StrokeEntry)
  | userJoined (u : User)
  | strokeDrawn (payload : String) (userId : String)
  | cursorMoved (userId : String) (username : String) (color : String) (x y : Int)
  | strokeUndone (userId : String) (strokeIndex : Nat)
  | canvasCleared
  | userLeft (userId : String) (username : String)
deriving Repr, DecidableEq

/-- One emission: the recipient socket ids (resolved against room
membership at the moment of the emit) and the event. -/
structure Emit where
  recipients : List String
  event : SEvent
deriving Repr, DecidableEq

/-- The fixed 8-entry color palette of the `join-drawing` handler. -/
def colors : List String :=
  ["#FF6B6B", "#4ECDC4", "#45B7D1", "#FFA07A",
   "#98D8C8", "#F7DC6F", "#BB8FCE", "#85C1E2"]

/-- Color choice `colors[rooms[drawingId].users.length % colors.length]`. -/
def pickColor (n : Nat) : String :=
  colors.getD (n % colors.length) ""

/-- Display-name resolution `username || 'User' + socket.id.substring(0, 4)`
— JavaScript `||`
falls through on `undefined` and on the empty string. -/
def resolveName (sid : String) (username : Option String) : String :=
  match username with
  | some u => if u = "" then "User" ++ sid.take 4 else u
  | none => "User" ++ sid.take 4

/-- The helper `removeUserFromRoom(drawingId, userId)`: look the room up; find the
first user with this id (`findIndex`); if present splice it out, emit
`user-left` to the sockets still in the room, and delete the room if its
user list became empty.  Returns the new `rooms` table and the emits. -/
def removeUserFromRoom (rooms : List (String × Room)) (drawingId userId : String) :
    List (String × Room) × List Emit :=
  match alookup rooms drawingId with
  | none => (rooms, [])
  | some room =>
    match room.users.find? (fun u => u.id == userId) with
    | none => (rooms, [])
    | some user =>
      let newUsers := room.users.eraseP (fun u => u.id == userId)
      let emits : List Emit :=
        [⟨newUsers.map (·.id), SEvent.userLeft userId user.username⟩]
      if newUsers.isEmpty then
        (aerase rooms drawingId, emits)
      else
        (aset rooms drawingId { room with users := newUsers }, emits)

/-- The `join-drawing` handler: leave (and clean up) the previous room if
any, join the new room, create it if absent, assign
`colors[users.length % colors.length]`, push the new user, unicast the
`room-state` snapshot to the joiner, and emit `user-joined` to the other
sockets in the room. -/
def joinDrawing (st : ServerState) (sid drawingId : String) (username : Option String) :
    ServerState × List Emit :=
  let prev := alookup st.socketRooms sid
  let cleaned :=
    match prev with
    | some p => removeUserFromRoom st.rooms p sid
    | none => (st.rooms, [])
  let rooms1 := cleaned.1
  let sr1 := aset st.socketRooms sid drawingId
  let room0 := (alookup rooms1 drawingId).getD { users := [], strokes := [] }
  let user : User :=
    { id := sid
      username := resolveName sid username
      color := pickColor room0.users.length }
  let newRoom : Room := { room0 with users := room0.users ++ [user] }
  let rooms2 := aset rooms1 drawingId newRoom
  let stateEmit : Emit := ⟨[sid], SEvent.roomState newRoom.users newRoom.strokes⟩
  let joinedEmit : Emit :=
    ⟨(newRoom.users.filter (fun u => u.id ≠ sid)).map (·.id), SEvent.userJoined user⟩
  (⟨rooms2, sr1⟩, cleaned.2 ++ [stateEmit, joinedEmit])

/-- The `draw-stroke` handler: if the room exists, push
`{...stroke, userId: socket.id, timestamp: Date.now()}` (the `userId`
written after the spread overrides any client-supplied one) onto the
room's stroke history and broadcast the stroke to every other socket in
the room. -/
def drawStroke (st : ServerState) (sid drawingId : String) (stroke : ClientStroke)
    (now : Nat) : ServerState × List Emit :=
  match alookup st.rooms drawingId with
  | none => (st, [])
  | some room =>
    let entry : StrokeEntry := { payload := stroke.payload, userId := sid, timestamp := now }
    let newRoom : Room := { room with strokes := room.strokes ++ [entry] }
    let recipients := (room.users.filter (fun u => u.id ≠ sid)).map (·.id)
    ({ st with rooms := aset st.rooms drawingId newRoom },
     [⟨recipients, SEvent.strokeDrawn stroke.payload sid⟩])

/-- The `cursor-move` handler: if the room exists and the sender is in its
user list, broadcast the cursor position to every other socket in the
room; no state is touched. -/
def cursorMove (st : ServerState) (sid drawingId : String) (x y : Int) :
    ServerState × List Emit :=
  match alookup st.rooms drawingId with
  | none => (st, [])
  | some room =>
    match room.users.find? (fun u => u.id == sid) with
    | none => (st, [])
    | some user =>
      let recipients := (room.users.filter (fun u => u.id ≠ sid)).map (·.id)
      (st, [⟨recipients, SEvent.cursorMoved sid user.username user.color x y⟩])

/-- The scan `strokes.map((stroke, index) => ({stroke, index})).filter(s => s.stroke
.userId === uid)` followed by taking the last element's index: the index
of the last stroke authored by `uid`, if any. -/
def lastIndexBy (uid : String) (l : List StrokeEntry) : Option Nat :=
  ((l.enum.filter (fun p => p.2.userId == uid)).map Prod.fst).getLast?

/-- Recursion-friendly reformulation of `lastIndexBy`, proved equal to it
in `lastIndexBy_eq_rec`: the head contributes index `0` only when no later
entry by the same author exists. -/
def lastIdxRec (uid : String) : List StrokeEntry → Option Nat
  | [] => none
  | e :: t =>
    match lastIdxRec uid t with
    | some i => some (i + 1)
    | none => if e.userId = uid then some 0 else none

/-- The `undo-stroke` handler: if the room exists, find the last stroke by
this socket; if there is one, splice it out at its index and emit
`stroke-undone` (author id + removed index) to every socket in the room,
sender included. -/
def undoStroke (st : ServerState) (sid drawingId : String) :
    ServerState × List Emit :=
  match alookup st.rooms drawingId with
  | none => (st, [])
  | some room =>
    match lastIndexBy sid room.strokes with
    | none => (st, [])
    | some idx =>
      let newRoom : Room := { room with strokes := room.strokes.eraseIdx idx }
      ({ st with rooms := aset st.rooms drawingId newRoom },
       [⟨newRoom.users.map (·.id), SEvent.strokeUndone sid idx⟩])

/-- The `clear-canvas` handler: if the room exists, reset its stroke list
to `[]` and emit `canvas-cleared` to every socket in the room, sender
included. -/
def clearCanvas (st : ServerState) (sid drawingId : String) :
    ServerState × List Emit :=
  match alookup st.rooms drawingId with
  | none => (st, [])
  | some room =>
    ({ st with rooms := aset st.rooms drawingId { room with strokes := [] } },
     [⟨room.users.map (·.id), SEvent.canvasCleared⟩])

/-- The `disconnect` handler: `Object.keys(rooms).forEach(id =>
removeUserFromRoom(id, socket.id))` over the key list snapshotted before
the loop; the transport also drops the socket from its rooms. -/
def disconnectSocket (st : ServerState) (sid : String) : ServerState × List Emit :=
  let result :=
    (st.rooms.map Prod.fst).foldl
      (fun acc k =>
        let r := removeUserFromRoom acc.1 k sid
        (r.1, acc.2 ++ r.2))
      (st.rooms, ([] : List Emit))
  (⟨result.1, aerase st.socketRooms sid⟩, result.2)

/-- The closed set of client→server events the server reacts to. -/
inductive CEvent : Type where
  | join (sid drawingId : String) (username : Option String)
  | stroke (sid drawingId : String) (payload : ClientStroke) (now : Nat)
  | cursor (sid drawingId : String) (x y : Int)
  | undo (sid drawingId : String)
  | clear (sid drawingId : String)
  | disconnect (sid : String)

/-- Dispatch one inbound event to its handler. -/
def step (st : ServerState) : CEvent → ServerState × List Emit
  | .join s d u => joinDrawing st s d u
  | .stroke s d p n => drawStroke st s d p n
  | .cursor s d x y => cursorMove st s d x y
  | .undo s d => undoStroke st s d
  | .clear s d => clearCanvas st s d
  | .disconnect s => disconnectSocket st s

/-- The store invariant of the spec: a session is present in the store only
with a non-empty member list. -/
def RoomsInv (rooms : List (String × Room)) : Prop :=
  ∀ d room, alookup rooms d = some room → room.users ≠ []

/-- The store invariant, read off a full server state. -/
def StoreInv (st : ServerState) : Prop :=
  RoomsInv st.rooms

/-- Concrete fixture: member `a` of room `r`. -/
def exUserA : User := ⟨"a", "Alice", "#FF6B6B"⟩

/-- Concrete fixture: member `b` of room `r`. -/
def exUserB : User := ⟨"b", "Bob", "#4ECDC4"⟩

/-- Concrete fixture: a stroke authored by `a`. -/
def exA1 : StrokeEntry := ⟨"A1", "a", 1⟩

/-- Concrete fixture: a stroke authored by `b`. -/
def exB1 : StrokeEntry := ⟨"B1", "b", 2⟩

/-- Concrete fixture: a second stroke authored by `a`. -/
def exA2 : StrokeEntry := ⟨"A2", "a", 3⟩

/-- Concrete fixture: a two-member room `r` (sockets `a` and `b`) holding
the given log. -/
def exState (log : List StrokeEntry) : ServerState :=
  ⟨[("r", ⟨[exUserA, exUserB], log⟩)], [("a", "r"), ("b", "r")]⟩

/-- Concrete fixture: room `r` whose sole member is socket `a`, holding one
stroke by `a`. -/
def exSolo : ServerState :=
  ⟨[("r", ⟨[exUserA], [exA1]⟩)], [("a", "r")]⟩

/-! ### Association-list lemmas -/

theorem alookup_aset_self {α : Type} (m : List (String × α)) (k : String) (v : α) :
    alookup (aset m k v) k = some v := by
  induction m with
  | nil => simp [aset, alookup]
  | cons p t ih =>
    obtain ⟨k', v'⟩ := p
    by_cases h : k' = k
    · simp [aset, h, alookup]
    · simp [aset, h, alookup, ih]

theorem alookup_aset_ne {α : Type} (m : List (String × α)) (k k' : String) (v : α)
    (h : k ≠ k') : alookup (aset m k v) k' = alookup m k' := by
  induction m with
  | nil => simp [aset, alookup, h]
  | cons p t ih =>
    obtain ⟨k₀, v₀⟩ := p
    by_cases h₀ : k₀ = k
    · subst h₀
      simp [aset, alookup, h]
    · simp only [aset, if_neg h₀, alookup]
      by_cases h₁ : k₀ = k'
      · simp [h₁]
      · simp [h₁, ih]

theorem alookup_aerase_self {α : Type} (m : List (String × α)) (k : String) :
    alookup (aerase m k) k = none := by
  induction m with
  | nil => simp [aerase, alookup]
  | cons p t ih =>
    obtain ⟨k₀, v₀⟩ := p
    by_cases h₀ : k₀ = k
    · simpa [aerase, h₀] using ih
    · simpa [aerase, alookup, h₀] using ih

theorem alookup_aerase_ne {α : Type} (m : List (String × α)) (k k' : String)
    (h : k ≠ k') : alookup (aerase m k) k' = alookup m k' := by
  induction m with
  | nil => simp [aerase, alookup]
  | cons p t ih =>
    obtain ⟨k₀, v₀⟩ := p
    by_cases h₀ : k₀ = k
    · subst h₀
      have hdrop : aerase ((k₀, v₀) :: t) k₀ = aerase t k₀ := by
        simp [aerase]
      rw [hdrop, ih]
      simp [alookup, h]
    · have hkeep : aerase ((k₀, v₀) :: t) k = (k₀, v₀) :: aerase t k := by
        simp [aerase, h₀]
      rw [hkeep]
      by_cases h₁ : k₀ = k'
      · simp [alookup, h₁]
      · simp [alookup, h₁, ih]

/-! ### Characterizing `lastIndexBy` -/

theorem lastIdxRec_cons_some (uid : String) (e : StrokeEntry) (t : List StrokeEntry)
    (i : Nat) (ht : lastIdxRec uid t = some i) :
    lastIdxRec uid (e :: t) = some (i + 1) := by
  simp [lastIdxRec, ht]

theorem lastIdxRec_cons_none_pos (uid : String) (e : StrokeEntry) (t : List StrokeEntry)
    (ht : lastIdxRec uid t = none) (he : e.userId = uid) :
    lastIdxRec uid (e :: t) = some 0 := by
  simp [lastIdxRec, ht, he]

theorem lastIdxRec_cons_none_neg (uid : String) (e : StrokeEntry) (t : List StrokeEntry)
    (ht : lastIdxRec uid t = none) (he : e.userId ≠ uid) :
    lastIdxRec uid (e :: t) = none := by
  simp [lastIdxRec, ht, he]

theorem lastIndexBy_from (uid : String) (l : List StrokeEntry) : ∀ n : Nat,
    (((List.enumFrom n l).filter (fun p => p.2.userId == uid)).map Prod.fst).getLast?
      = (lastIdxRec uid l).map (· + n) := by
  induction l with
  | nil => intro n; simp [lastIdxRec]
  | cons e t ih =>
    intro n
    rw [List.enumFrom_cons]
    by_cases he : e.userId = uid
    · rw [List.filter_cons_of_pos (by simpa using he), List.map_cons]
      have h1 := ih (n + 1)
      rw [List.getLast?_cons]
      cases ht : lastIdxRec uid t with
      | some i =>
        rw [ht] at h1
        rw [h1, lastIdxRec_cons_some uid e t i ht]
        simp only [Option.map_some', Option.getD_some, Option.some.injEq]
        omega
      | none =>
        rw [ht] at h1
        rw [h1, lastIdxRec_cons_none_pos uid e t ht he]
        simp
    · rw [List.filter_cons_of_neg (by simpa using he)]
      rw [ih (n + 1)]
      cases ht : lastIdxRec uid t with
      | some i =>
        rw [lastIdxRec_cons_some uid e t i ht]
        simp only [Option.map_some', Option.some.injEq]
        omega
      | none =>
        rw [lastIdxRec_cons_none_neg uid e t ht he]
        simp

theorem lastIndexBy_eq_rec (uid : String) (l : List StrokeEntry) :
    lastIndexBy uid l = lastIdxRec uid l := by
  have h := lastIndexBy_from uid l 0
  unfold lastIndexBy
  unfold List.enum
  rw [h]
  cases lastIdxRec uid l <;> simp

theorem lastIdxRec_none_iff (uid : String) (l : List StrokeEntry) :
    lastIdxRec uid l = none ↔ ∀ e ∈ l, e.userId ≠ uid := by
  induction l with
  | nil => simp [lastIdxRec]
  | cons e t ih =>
    constructor
    · intro h x hx
      cases ht : lastIdxRec uid t with
      | some i => rw [lastIdxRec_cons_some uid e t i ht] at h; exact absurd h (by simp)
      | none =>
        by_cases he : e.userId = uid
        · rw [lastIdxRec_cons_none_pos uid e t ht he] at h
          exact absurd h (by simp)
        · rcases List.mem_cons.mp hx with h' | h'
          · subst h'; exact he
          · exact (ih.mp ht) x h'
    · intro h
      have ht : lastIdxRec uid t = none :=
        ih.mpr (fun x hx => h x (List.mem_cons_of_mem _ hx))
      have he : e.userId ≠ uid := h e (List.mem_cons_self _ _)
      exact lastIdxRec_cons_none_neg uid e t ht he

theorem lastIdxRec_spec_some (uid : String) (l : List StrokeEntry) (i : Nat)
    (h : lastIdxRec uid l = some i) :
    ∃ hlt : i < l.length, (l.get ⟨i, hlt⟩).userId = uid ∧
      ∀ j, i < j → ∀ hj : j < l.length, (l.get ⟨j, hj⟩).userId ≠ uid := by
  induction l generalizing i with
  | nil => simp [lastIdxRec] at h
  | cons e t ih =>
    cases ht : lastIdxRec uid t with
    | some i' =>
      rw [lastIdxRec_cons_some uid e t i' ht] at h
      have hi : i = i' + 1 := by
        have := Option.some.inj h; omega
      subst hi
      obtain ⟨hlt, hget, hlast⟩ := ih i' ht
      refine ⟨by simpa using Nat.succ_lt_succ hlt, by simpa using hget, ?_⟩
      intro j hij hj
      rcases j with _ | j'
      · omega
      · have hj' : j' < t.length := by simpa using hj
        have : i' < j' := by omega
        simpa using hlast j' this hj'
    | none =>
      by_cases he : e.userId = uid
      · rw [lastIdxRec_cons_none_pos uid e t ht he] at h
        have hi : i = 0 := by
          have := Option.some.inj h; omega
        subst hi
        refine ⟨by simp, by simpa using he, ?_⟩
        intro j hij hj
        rcases j with _ | j'
        · omega
        · have hj' : j' < t.length := by simpa using hj
          have hnone := (lastIdxRec_none_iff uid t).mp ht
          have hmem : t.get ⟨j', hj'⟩ ∈ t := List.get_mem t j' hj'
          simpa using hnone _ hmem
      · rw [lastIdxRec_cons_none_neg uid e t ht he] at h
        exact absurd h (by simp)

/-! ### `removeUserFromRoom` lemmas -/

theorem rufr_absent (m : List (String × Room)) (p uid : String)
    (hm : alookup m p = none) : removeUserFromRoom m p uid = (m, []) := by
  simp [removeUserFromRoom, hm]

theorem rufr_nouser (m : List (String × Room)) (p uid : String) (room : Room)
    (hm : alookup m p = some room)
    (hf : room.users.find? (fun u => u.id == uid) = none) :
    removeUserFromRoom m p uid = (m, []) := by
  simp [removeUserFromRoom, hm, hf]

theorem rufr_eq_found (m : List (String × Room)) (p uid : String) (room : Room)
    (user : User) (hm : alookup m p = some room)
    (hf : room.users.find? (fun u => u.id == uid) = some user) :
    removeUserFromRoom m p uid =
      if (room.users.eraseP (fun u => u.id == uid)).isEmpty then
        (aerase m p,
         [⟨(room.users.eraseP (fun u => u.id == uid)).map (·.id),
           SEvent.userLeft uid user.username⟩])
      else
        (aset m p { room with users := room.users.eraseP (fun u => u.id == uid) },
         [⟨(room.users.eraseP (fun u => u.id == uid)).map (·.id),
           SEvent.userLeft uid user.username⟩]) := by
  simp only [removeUserFromRoom, hm, hf]

theorem rufr_lookup_ne (m : List (String × Room)) (p d uid : String) (h : p ≠ d) :
    alookup (removeUserFromRoom m p uid).1 d = alookup m d := by
  rcases hm : alookup m p with _ | room
  · rw [rufr_absent m p uid hm]
  · rcases hf : room.users.find? (fun u => u.id == uid) with _ | user
    · rw [rufr_nouser m p uid room hm hf]
    · rw [rufr_eq_found m p uid room user hm hf]
      by_cases hemp : (room.users.eraseP (fun u => u.id == uid)).isEmpty
      · simp [hemp, alookup_aerase_ne m p d h]
      · simp [hemp, alookup_aset_ne m p d _ h]

theorem rufr_lookup_absent (m : List (String × Room)) (p d uid : String)
    (h : alookup m d = none) :
    alookup (removeUserFromRoom m p uid).1 d = none := by
  by_cases hpd : p = d
  · subst hpd
    rw [rufr_absent m p uid h]
    exact h
  · rw [rufr_lookup_ne m p d uid hpd]
    exact h

theorem roomsInv_aerase (m : List (String × Room)) (k : String)
    (h : RoomsInv m) : RoomsInv (aerase m k) := by
  intro d room hd
  by_cases hk : k = d
  · subst hk
    rw [alookup_aerase_self] at hd
    exact absurd hd (by simp)
  · rw [alookup_aerase_ne m k d hk] at hd
    exact h d room hd

theorem roomsInv_aset (m : List (String × Room)) (k : String) (room : Room)
    (h : RoomsInv m) (hr : room.users ≠ []) : RoomsInv (aset m k room) := by
  intro d room' hd
  by_cases hk : k = d
  · subst hk
    rw [alookup_aset_self] at hd
    obtain rfl := Option.some.inj hd
    exact hr
  · rw [alookup_aset_ne m k d room hk] at hd
    exact h d room' hd

theorem rufr_inv (m : List (String × Room)) (p uid : String) (h : RoomsInv m) :
    RoomsInv (removeUserFromRoom m p uid).1 := by
  rcases hm : alookup m p with _ | room
  · rw [rufr_absent m p uid hm]; exact h
  · rcases hf : room.users.find? (fun u => u.id == uid) with _ | user
    · rw [rufr_nouser m p uid room hm hf]; exact h
    · rw [rufr_eq_found m p uid room user hm hf]
      by_cases hemp : (room.users.eraseP (fun u => u.id == uid)).isEmpty
      · simpa [hemp] using roomsInv_aerase m p h
      · have hne : room.users.eraseP (fun u => u.id == uid) ≠ [] := by
          intro hc; rw [hc] at hemp; simp at hemp
        simpa [hemp] using
          roomsInv_aset m p { room with users := room.users.eraseP (fun u => u.id == uid) } h hne

theorem rufr_sole (m : List (String × Room)) (d uid : String) (room : Room) (u : User)
    (hm : alookup m d = some room) (hu : room.users = [u]) (hid : u.id = uid) :
    alookup (removeUserFromRoom m d uid).1 d = none := by
  have hf : room.users.find? (fun u => u.id == uid) = some u := by
    rw [hu]
    simp [List.find?, hid]
  have herase : room.users.eraseP (fun u => u.id == uid) = [] := by
    rw [hu]
    simp [List.eraseP_cons, hid]
  rw [rufr_eq_found m d uid room u hm hf, herase]
  simp [alookup_aerase_self]

/-! ### Shape lemmas for the handlers -/

theorem joinDrawing_rooms_eq (st : ServerState) (sid d : String) (uname : Option String) :
    (joinDrawing st sid d uname).1.rooms
      = (let rooms1 := (match alookup st.socketRooms sid with
                        | some p => removeUserFromRoom st.rooms p sid
                        | none => (st.rooms, [])).1
         let room0 := (alookup rooms1 d).getD ⟨[], []⟩
         aset rooms1 d
           ⟨room0.users ++ [⟨sid, resolveName sid uname, pickColor room0.users.length⟩],
            room0.strokes⟩) := rfl

theorem joinDrawing_socketRooms_eq (st : ServerState) (sid d : String)
    (uname : Option String) :
    (joinDrawing st sid d uname).1.socketRooms = aset st.socketRooms sid d := rfl

theorem joinDrawing_lookup_target (st : ServerState) (sid d : String)
    (uname : Option String) (h : alookup st.socketRooms sid ≠ some d) :
    alookup (joinDrawing st sid d uname).1.rooms d
      = some ⟨((alookup st.rooms d).getD ⟨[], []⟩).users ++
                [⟨sid, resolveName sid uname,
                  pickColor ((alookup st.rooms d).getD ⟨[], []⟩).users.length⟩],
              ((alookup st.rooms d).getD ⟨[], []⟩).strokes⟩ := by
  rw [joinDrawing_rooms_eq]
  rcases hp : alookup st.socketRooms sid with _ | p
  · simp only [hp]
    rw [alookup_aset_self]
  · have hpd : p ≠ d := by
      intro hc
      subst hc
      exact h hp
    simp only [hp]
    rw [alookup_aset_self, rufr_lookup_ne st.rooms p d sid hpd]

theorem cursorMove_state (st : ServerState) (sid d : String) (x y : Int) :
    (cursorMove st sid d x y).1 = st := by
  rcases hm : alookup st.rooms d with _ | room
  · simp [cursorMove, hm]
  · rcases hf : room.users.find? (fun u => u.id == sid) with _ | user
    · simp [cursorMove, hm, hf]
    · simp [cursorMove, hm, hf]

theorem drawStroke_absent (st : ServerState) (sid d : String) (stroke : ClientStroke)
    (now : Nat) (hm : alookup st.rooms d = none) :
    drawStroke st sid d stroke now = (st, []) := by
  simp [drawStroke, hm]

theorem drawStroke_eq_found (st : ServerState) (sid d : String) (stroke : ClientStroke)
    (now : Nat) (room : Room) (hm : alookup st.rooms d = some room) :
    drawStroke st sid d stroke now
      = ({ st with
            rooms := aset st.rooms d
              { room with strokes := room.strokes ++ [⟨stroke.payload, sid, now⟩] } },
         [⟨(room.users.filter (fun u => u.id ≠ sid)).map (·.id),
           SEvent.strokeDrawn stroke.payload sid⟩]) := by
  simp only [drawStroke, hm]

theorem undoStroke_absent (st : ServerState) (sid d : String)
    (hm : alookup st.rooms d = none) : undoStroke st sid d = (st, []) := by
  simp [undoStroke, hm]

theorem undoStroke_nohit (st : ServerState) (sid d : String) (room : Room)
    (hm : alookup st.rooms d = some room)
    (hl : lastIndexBy sid room.strokes = none) : undoStroke st sid d = (st, []) := by
  simp [undoStroke, hm, hl]

theorem undoStroke_eq_found (st : ServerState) (sid d : String) (room : Room) (idx : Nat)
    (hm : alookup st.rooms d = some room)
    (hl : lastIndexBy sid room.strokes = some idx) :
    undoStroke st sid d
      = ({ st with
            rooms := aset st.rooms d { room with strokes := room.strokes.eraseIdx idx } },
         [⟨room.users.map (·.id), SEvent.strokeUndone sid idx⟩]) := by
  simp only [undoStroke, hm, hl]

theorem clearCanvas_absent (st : ServerState) (sid d : String)
    (hm : alookup st.rooms d = none) : clearCanvas st sid d = (st, []) := by
  simp [clearCanvas, hm]

theorem clearCanvas_eq_found (st : ServerState) (sid d : String) (room : Room)
    (hm : alookup st.rooms d = some room) :
    clearCanvas st sid d
      = ({ st with rooms := aset st.rooms d { room with strokes := [] } },
         [⟨room.users.map (·.id), SEvent.canvasCleared⟩]) := by
  simp only [clearCanvas, hm]

theorem cursorMove_absent (st : ServerState) (sid d : String) (x y : Int)
    (hm : alookup st.rooms d = none) : cursorMove st sid d x y = (st, []) := by
  simp [cursorMove, hm]

theorem disconnectSocket_rooms_eq (st : ServerState) (sid : String) :
    (disconnectSocket st sid).1.rooms
      = ((st.rooms.map Prod.fst).foldl
          (fun acc k =>
            let r := removeUserFromRoom acc.1 k sid
            (r.1, acc.2 ++ r.2))
          (st.rooms, ([] : List Emit))).1 := rfl

/-! ### The store invariant is preserved by every event -/

theorem foldRemove_inv (sid : String) (keys : List String) :
    ∀ (m : List (String × Room)) (e : List Emit), RoomsInv m →
      RoomsInv ((keys.foldl
        (fun acc k =>
          let r := removeUserFromRoom acc.1 k sid
          (r.1, acc.2 ++ r.2)) (m, e)).1) := by
  induction keys with
  | nil => intro m e h; exact h
  | cons k ks ih =>
    intro m e h
    simp only [List.foldl_cons]
    exact ih _ _ (rufr_inv m k sid h)

theorem step_inv (st : ServerState) (ev : CEvent) (h : StoreInv st) :
    StoreInv (step st ev).1 := by
  cases ev with
  | join sid d uname =>
    have h1 : RoomsInv (match alookup st.socketRooms sid with
        | some p => removeUserFromRoom st.rooms p sid
        | none => (st.rooms, [])).1 := by
      rcases hp : alookup st.socketRooms sid with _ | p
      · simpa [hp] using h
      · simpa [hp] using rufr_inv st.rooms p sid h
    unfold StoreInv
    show RoomsInv (joinDrawing st sid d uname).1.rooms
    rw [joinDrawing_rooms_eq]
    exact roomsInv_aset _ d _ h1 (by simp)
  | stroke sid d p n =>
    rcases hm : alookup st.rooms d with _ | room
    · show StoreInv (drawStroke st sid d p n).1
      rw [drawStroke_absent st sid d p n hm]
      exact h
    · show StoreInv (drawStroke st sid d p n).1
      rw [drawStroke_eq_found st sid d p n room hm]
      exact roomsInv_aset _ d _ h (h d room hm)
  | cursor sid d x y =>
    show StoreInv (cursorMove st sid d x y).1
    rw [cursorMove_state]
    exact h
  | undo sid d =>
    rcases hm : alookup st.rooms d with _ | room
    · show StoreInv (undoStroke st sid d).1
      rw [undoStroke_absent st sid d hm]
      exact h
    · rcases hl : lastIndexBy sid room.strokes with _ | idx
      · show StoreInv (undoStroke st sid d).1
        rw [undoStroke_nohit st sid d room hm hl]
        exact h
      · show StoreInv (undoStroke st sid d).1
        rw [undoStroke_eq_found st sid d room idx hm hl]
        exact roomsInv_aset _ d _ h (h d room hm)
  | clear sid d =>
    rcases hm : alookup st.rooms d with _ | room
    · show StoreInv (clearCanvas st sid d).1
      rw [clearCanvas_absent st sid d hm]
      exact h
    · show StoreInv (clearCanvas st sid d).1
      rw [clearCanvas_eq_found st sid d room hm]
      exact roomsInv_aset _ d _ h (h d room hm)
  | disconnect sid =>
    show StoreInv (disconnectSocket st sid).1
    unfold StoreInv
    rw [disconnectSocket_rooms_eq]
    exact foldRemove_inv sid _ _ _ h

theorem alookup_mem_keys {α : Type} (m : List (String × α)) (d : String) (v : α)
    (h : alookup m d = some v) : d ∈ m.map Prod.fst := by
  induction m with
  | nil => simp [alookup] at h
  | cons p t ih =>
    obtain ⟨k, w⟩ := p
    by_cases hk : k = d
    · simp [hk]
    · simp only [alookup, if_neg hk] at h
      simp [ih h]

theorem foldRemove_lookup_none (sid d : String) (keys : List String) :
    ∀ (m : List (String × Room)) (e : List Emit), alookup m d = none →
      alookup ((keys.foldl
        (fun acc k =>
          let r := removeUserFromRoom acc.1 k sid
          (r.1, acc.2 ++ r.2)) (m, e)).1) d = none := by
  induction keys with
  | nil => intro m e h; exact h
  | cons k ks ih =>
    intro m e h
    simp only [List.foldl_cons]
    exact ih _ _ (rufr_lookup_absent m k d sid h)

theorem foldRemove_sole (sid d : String) (u : User) (hid : u.id = sid)
    (keys : List String) :
    ∀ (m : List (String × Room)) (e : List Emit) (room : Room),
      alookup m d = some room → room.users = [u] → d ∈ keys →
      alookup ((keys.foldl
        (fun acc k =>
          let r := removeUserFromRoom acc.1 k sid
          (r.1, acc.2 ++ r.2)) (m, e)).1) d = none := by
  induction keys with
  | nil => intro m e room _ _ hk; simp at hk
  | cons k ks ih =>
    intro m e room hm hu hk
    simp only [List.foldl_cons]
    by_cases hkd : k = d
    · subst hkd
      have hnone : alookup (removeUserFromRoom m k sid).1 k = none :=
        rufr_sole m k sid room u hm hu hid
      exact foldRemove_lookup_none sid k ks _ _ hnone
    · rcases List.mem_cons.mp hk with h' | h'
      · exact absurd h'.symm hkd
      · have hkeep : alookup (removeUserFromRoom m k sid).1 d = some room := by
          rw [rufr_lookup_ne m k d sid hkd]
          exact hm
        exact ih _ _ room hkeep hu h'

theorem joinDrawing_emits_eq (st : ServerState) (sid d : String) (uname : Option String) :
    (joinDrawing st sid d uname).2
      = (let cleaned := match alookup st.socketRooms sid with
           | some p => removeUserFromRoom st.rooms p sid
           | none => (st.rooms, [])
         let room0 := (alookup cleaned.1 d).getD ⟨[], []⟩
         let user : User := ⟨sid, resolveName sid uname, pickColor room0.users.length⟩
         cleaned.2 ++
           [⟨[sid], SEvent.roomState (room0.users ++ [user]) room0.strokes⟩,
            ⟨((room0.users ++ [user]).filter (fun u => u.id ≠ sid)).map (·.id),
             SEvent.userJoined user⟩]) := rfl

/-! ### Claim theorems -/

/-- C5: for a session id absent from the store, each mutating event
(`draw-stroke`, `undo-stroke`, `clear-canvas`) and also `cursor-move` is a
silent no-op: the whole store is unchanged, nothing is broadcast and no
error is surfaced. -/
theorem absent_session_mutations_noop (st : ServerState) (sid d : String)
    (stroke : ClientStroke) (now : Nat) (x y : Int)
    (h : alookup st.rooms d = none) :
    drawStroke st sid d stroke now = (st, []) ∧
    undoStroke st sid d = (st, []) ∧
    clearCanvas st sid d = (st, []) ∧
    cursorMove st sid d x y = (st, []) :=
  ⟨drawStroke_absent st sid d stroke now h, undoStroke_absent st sid d h,
   clearCanvas_absent st sid d h, cursorMove_absent st sid d x y h⟩

theorem absent_session_mutations_noop_witness :
    alookup (⟨[], []⟩ : ServerState).rooms "r" = none ∧
    (drawStroke ⟨[], []⟩ "a" "r" ⟨"P", none⟩ 0 = (⟨[], []⟩, []) ∧
     undoStroke ⟨[], []⟩ "a" "r" = (⟨[], []⟩, []) ∧
     clearCanvas ⟨[], []⟩ "a" "r" = (⟨[], []⟩, []) ∧
     cursorMove ⟨[], []⟩ "a" "r" 1 2 = (⟨[], []⟩, [])) :=
  ⟨rfl, absent_session_mutations_noop ⟨[], []⟩ "a" "r" ⟨"P", none⟩ 0 1 2 rfl⟩

/-- C7: for an existing session, `clear-canvas` empties the log
unconditionally (no hypothesis on the sender or on who authored the
entries) and emits `canvas-cleared` to every member of the session, the
initiator included (the recipient list is exactly the member ids). -/
theorem clear_canvas_universal (st : ServerState) (sid d : String) (room : Room)
    (hm : alookup st.rooms d = some room) :
    clearCanvas st sid d
      = ({ st with rooms := aset st.rooms d { room with strokes := [] } },
         [⟨room.users.map (·.id), SEvent.canvasCleared⟩]) ∧
    alookup (clearCanvas st sid d).1.rooms d = some { room with strokes := [] } ∧
    ∀ u ∈ room.users, u.id ∈ room.users.map (·.id) := by
  refine ⟨clearCanvas_eq_found st sid d room hm, ?_, ?_⟩
  · rw [clearCanvas_eq_found st sid d room hm]
    exact alookup_aset_self st.rooms d _
  · intro u hu
    exact List.mem_map.mpr ⟨u, hu, rfl⟩

theorem clear_canvas_universal_witness :
    alookup (exState [exA1]).rooms "r" = some ⟨[exUserA, exUserB], [exA1]⟩ ∧
    alookup (clearCanvas (exState [exA1]) "a" "r").1.rooms "r"
      = some ⟨[exUserA, exUserB], []⟩ :=
  ⟨rfl, (clear_canvas_universal (exState [exA1]) "a" "r" ⟨[exUserA, exUserB], [exA1]⟩
      rfl).2.1⟩

/-- C8: for an existing session, a `draw-stroke` from socket `sid` appends
exactly one entry to the log and emits the stroke to every member other
than `sid`; `sid` itself is never among the recipients. -/
theorem stroke_broadcast_excludes_author (st : ServerState) (sid d : String)
    (room : Room) (stroke : ClientStroke) (now : Nat)
    (hm : alookup st.rooms d = some room) :
    drawStroke st sid d stroke now
      = ({ st with
            rooms := aset st.rooms d
              { room with strokes := room.strokes ++ [⟨stroke.payload, sid, now⟩] } },
         [⟨(room.users.filter (fun u => u.id ≠ sid)).map (·.id),
           SEvent.strokeDrawn stroke.payload sid⟩]) ∧
    sid ∉ (room.users.filter (fun u => u.id ≠ sid)).map (·.id) ∧
    ∀ u ∈ room.users, u.id ≠ sid →
      u.id ∈ (room.users.filter (fun u => u.id ≠ sid)).map (·.id) := by
  refine ⟨drawStroke_eq_found st sid d stroke now room hm, ?_, ?_⟩
  · intro hmem
    rcases List.mem_map.mp hmem with ⟨u, hu, hid⟩
    have hf := (List.mem_filter.mp hu).2
    simp [hid] at hf
  · intro u hu hne
    exact List.mem_map.mpr ⟨u, List.mem_filter.mpr ⟨hu, by simp [hne]⟩, rfl⟩

theorem stroke_broadcast_excludes_author_witness :
    alookup (exState []).rooms "r" = some ⟨[exUserA, exUserB], []⟩ ∧
    "a" ∉ (([exUserA, exUserB] : List User).filter
        (fun u => u.id ≠ "a")).map (·.id) :=
  ⟨rfl, (stroke_broadcast_excludes_author (exState []) "a" "r"
      ⟨[exUserA, exUserB], []⟩ ⟨"P", none⟩ 0 rfl).2.1⟩

/-- C9: the author stamped on an appended stroke is server-assigned: for
every client payload — including one carrying its own `userId` field — the
appended entry's `userId` is the sending socket's id, because the handler
writes `userId: socket.id` after spreading the payload. -/
theorem stroke_author_overridden (st : ServerState) (sid d : String) (room : Room)
    (stroke : ClientStroke) (now : Nat) (hm : alookup st.rooms d = some room) :
    alookup (drawStroke st sid d stroke now).1.rooms d
      = some { room with strokes := room.strokes ++ [⟨stroke.payload, sid, now⟩] } ∧
    ∀ claimed : String, stroke.userId = some claimed →
      ∃ r', alookup (drawStroke st sid d stroke now).1.rooms d = some r' ∧
        r'.strokes.getLast? = some ⟨stroke.payload, sid, now⟩ := by
  have h1 : alookup (drawStroke st sid d stroke now).1.rooms d
      = some { room with strokes := room.strokes ++ [⟨stroke.payload, sid, now⟩] } := by
    rw [drawStroke_eq_found st sid d stroke now room hm]
    exact alookup_aset_self st.rooms d _
  refine ⟨h1, fun claimed _ => ⟨_, h1, ?_⟩⟩
  exact List.getLast?_concat _

theorem stroke_author_overridden_witness :
    alookup (exState []).rooms "r" = some ⟨[exUserA, exUserB], []⟩ ∧
    (⟨"P", some "b"⟩ : ClientStroke).userId = some "b" ∧
    ∃ r', alookup (drawStroke (exState []) "a" "r" ⟨"P", some "b"⟩ 7).1.rooms "r"
        = some r' ∧ r'.strokes.getLast? = some ⟨"P", "a", 7⟩ :=
  ⟨rfl, rfl, (stroke_author_overridden (exState []) "a" "r" ⟨[exUserA, exUserB], []⟩
      ⟨"P", some "b"⟩ 7 rfl).2 "b" rfl⟩

/-- C10: `cursor-move` never mutates the store (the state is returned
unchanged in every branch), and the cursor is broadcast — to the members
other than the sender — only when the session exists and the sender is
currently one of its members; an absent session or a non-member sender
produces no emission at all. -/
theorem cursor_no_mutation_requires_membership (st : ServerState) (sid d : String)
    (x y : Int) :
    (cursorMove st sid d x y).1 = st ∧
    (alookup st.rooms d = none → (cursorMove st sid d x y).2 = []) ∧
    (∀ room, alookup st.rooms d = some room →
      ((∀ u ∈ room.users, u.id ≠ sid) → (cursorMove st sid d x y).2 = []) ∧
      ((∃ u ∈ room.users, u.id = sid) →
        ∃ user, user ∈ room.users ∧ user.id = sid ∧
          (cursorMove st sid d x y).2
            = [⟨(room.users.filter (fun u => u.id ≠ sid)).map (·.id),
                SEvent.cursorMoved sid user.username user.color x y⟩] ∧
          sid ∉ (room.users.filter (fun u => u.id ≠ sid)).map (·.id))) := by
  refine ⟨cursorMove_state st sid d x y, ?_, ?_⟩
  · intro h
    rw [cursorMove_absent st sid d x y h]
  · intro room hm
    constructor
    · intro hall
      have hf : room.users.find? (fun u => u.id == sid) = none :=
        List.find?_eq_none.mpr (fun u hu => by simpa using hall u hu)
      simp [cursorMove, hm, hf]
    · intro hex
      rcases hf : room.users.find? (fun u => u.id == sid) with _ | user
      · exfalso
        rcases hex with ⟨u, hu, hid⟩
        have := List.find?_eq_none.mp hf u hu
        simp [hid] at this
      · have hmem : user ∈ room.users := List.mem_of_find?_eq_some hf
        have hid : user.id = sid := by
          have := List.find?_some hf
          simpa using this
        refine ⟨user, hmem, hid, ?_, ?_⟩
        · simp [cursorMove, hm, hf]
        · intro hmem2
          rcases List.mem_map.mp hmem2 with ⟨u, hu, hid2⟩
          have hfm := (List.mem_filter.mp hu).2
          simp [hid2] at hfm

theorem cursor_no_mutation_requires_membership_witness :
    alookup (exState []).rooms "r" = some ⟨[exUserA, exUserB], []⟩ ∧
    (∀ u ∈ ([exUserA, exUserB] : List User), u.id ≠ "z") ∧
    (cursorMove (exState []) "z" "r" 1 2).1 = exState [] ∧
    (cursorMove (exState []) "z" "r" 1 2).2 = [] :=
  ⟨rfl, by decide,
   (cursor_no_mutation_requires_membership (exState []) "z" "r" 1 2).1,
   ((cursor_no_mutation_requires_membership (exState []) "z" "r" 1 2).2.2
       ⟨[exUserA, exUserB], []⟩ rfl).1 (by decide)⟩

/-- C6: color allocation is a pure function of occupancy at join time: the
palette has exactly 8 entries, `pickColor n = palette[n mod 8]`, and a
join by a socket whose current room is not the target appends a member
whose color is `palette[N mod 8]` where `N` is the target session's member
count at join time (0 if the session is being created). -/
theorem color_allocation_deterministic (st : ServerState) (sid d : String)
    (uname : Option String) (h : alookup st.socketRooms sid ≠ some d) :
    colors.length = 8 ∧
    (∀ n : Nat, pickColor n = colors.getD (n % 8) "") ∧
    ∃ room', alookup (joinDrawing st sid d uname).1.rooms d = some room' ∧
      room'.users.getLast?
        = some ⟨sid, resolveName sid uname,
            colors.getD (((alookup st.rooms d).getD ⟨[], []⟩).users.length % 8) ""⟩ := by
  refine ⟨rfl, fun n => rfl, ?_⟩
  refine ⟨_, joinDrawing_lookup_target st sid d uname h, ?_⟩
  show (((alookup st.rooms d).getD ⟨[], []⟩).users ++ [_]).getLast? = _
  rw [List.getLast?_concat]
  simp [pickColor, colors]

theorem color_allocation_deterministic_witness :
    alookup (⟨[], []⟩ : ServerState).socketRooms "a" ≠ some "r" ∧
    ∃ room', alookup (joinDrawing ⟨[], []⟩ "a" "r" (some "n")).1.rooms "r"
        = some room' ∧
      room'.users.getLast?
        = some ⟨"a", resolveName "a" (some "n"), colors.getD (0 % 8) ""⟩ :=
  ⟨by decide,
   (color_allocation_deterministic ⟨[], []⟩ "a" "r" (some "n") (by decide)).2.2⟩

/-- C1: for an existing session, `undo-stroke` removes exactly the
highest-index stroke authored by the caller — the prefix before it and the
suffix after it are kept in order — and emits `stroke-undone` (author id +
removed index) to all members, the author included when it is a member; if
the caller authored no stroke in the log, the state is unchanged and
nothing is emitted.  In particular, on the log `[A1, B1, A2]` an undo by
`a` removes `A2` at index 2, a second undo by `a` removes `A1` at index 0
leaving `[B1]`, a third undo by `a` is a no-op, and an undo by `b` on log
`[A1]` is a no-op. -/
theorem undo_removes_last_own_stroke (st : ServerState) (sid d : String) (room : Room)
    (hm : alookup st.rooms d = some room) :
    ((∃ e ∈ room.strokes, e.userId = sid) →
      ∃ i, (∃ hlt : i < room.strokes.length,
              (room.strokes.get ⟨i, hlt⟩).userId = sid ∧
              ∀ j, i < j → ∀ hj : j < room.strokes.length,
                (room.strokes.get ⟨j, hj⟩).userId ≠ sid) ∧
        undoStroke st sid d
          = ({ st with
                rooms := aset st.rooms d
                  { room with
                      strokes := room.strokes.take i ++ room.strokes.drop (i + 1) } },
             [⟨room.users.map (·.id), SEvent.strokeUndone sid i⟩]) ∧
        (∀ u ∈ room.users, u.id = sid → sid ∈ room.users.map (·.id))) ∧
    ((∀ e ∈ room.strokes, e.userId ≠ sid) → undoStroke st sid d = (st, [])) ∧
    (undoStroke (exState [exA1, exB1, exA2]) "a" "r"
        = (exState [exA1, exB1], [⟨["a", "b"], SEvent.strokeUndone "a" 2⟩]) ∧
     undoStroke (exState [exA1, exB1]) "a" "r"
        = (exState [exB1], [⟨["a", "b"], SEvent.strokeUndone "a" 0⟩]) ∧
     undoStroke (exState [exB1]) "a" "r" = (exState [exB1], []) ∧
     undoStroke (exState [exA1]) "b" "r" = (exState [exA1], [])) := by
  refine ⟨?_, ?_, by decide, by decide, by decide, by decide⟩
  · rintro ⟨e, he, heq⟩
    rcases hcase : lastIdxRec sid room.strokes with _ | i
    · exact absurd heq (((lastIdxRec_none_iff sid room.strokes).mp hcase) e he)
    · have hl : lastIndexBy sid room.strokes = some i := by
        rw [lastIndexBy_eq_rec, hcase]
      obtain ⟨hlt, hget, hlast⟩ := lastIdxRec_spec_some sid room.strokes i hcase
      refine ⟨i, ⟨hlt, hget, hlast⟩, ?_, ?_⟩
      · rw [undoStroke_eq_found st sid d room i hm hl,
            List.eraseIdx_eq_take_drop_succ]
      · intro u hu hid
        exact List.mem_map.mpr ⟨u, hu, hid⟩
  · intro hall
    exact undoStroke_nohit st sid d room hm (by
      rw [lastIndexBy_eq_rec]
      exact (lastIdxRec_none_iff sid room.strokes).mpr hall)

theorem undo_removes_last_own_stroke_witness :
    alookup (exState [exA1]).rooms "r" = some ⟨[exUserA, exUserB], [exA1]⟩ ∧
    (∀ e ∈ ([exA1] : List StrokeEntry), e.userId ≠ "b") ∧
    undoStroke (exState [exA1]) "b" "r" = (exState [exA1], []) :=
  ⟨rfl, by decide,
   (undo_removes_last_own_stroke (exState [exA1]) "b" "r"
       ⟨[exUserA, exUserB], [exA1]⟩ rfl).2.1 (by decide)⟩

/-- C2: the store invariant — a session is present only with a non-empty
member list — is preserved by every event; removing a session's sole member
(the leave logic, and likewise a full `disconnect`) deletes the session in
the same step; and a join to an absent session id recreates it from an
empty member list and an empty log (the resulting room holds exactly the
joiner and no strokes). -/
theorem session_present_iff_members (st : ServerState) (h : StoreInv st) :
    (∀ ev : CEvent, StoreInv (step st ev).1) ∧
    (∀ d sid room u, alookup st.rooms d = some room → room.users = [u] →
      u.id = sid →
      alookup (removeUserFromRoom st.rooms d sid).1 d = none ∧
      alookup (disconnectSocket st sid).1.rooms d = none) ∧
    (∀ sid d uname, alookup st.rooms d = none →
      alookup (joinDrawing st sid d uname).1.rooms d
        = some ⟨[⟨sid, resolveName sid uname, pickColor 0⟩], []⟩) := by
  refine ⟨fun ev => step_inv st ev h, ?_, ?_⟩
  · intro d sid room u hm hu hid
    refine ⟨rufr_sole st.rooms d sid room u hm hu hid, ?_⟩
    have hkey : d ∈ st.rooms.map Prod.fst := alookup_mem_keys st.rooms d room hm
    rw [disconnectSocket_rooms_eq]
    exact foldRemove_sole sid d u hid (st.rooms.map Prod.fst) st.rooms [] room hm hu hkey
  · intro sid d uname hnone
    rw [joinDrawing_rooms_eq]
    rcases hp : alookup st.socketRooms sid with _ | p
    · simp only [hp, hnone, Option.getD_none]
      rw [alookup_aset_self]
      rfl
    · have h1 : alookup (removeUserFromRoom st.rooms p sid).1 d = none :=
        rufr_lookup_absent st.rooms p d sid hnone
      simp only [hp, h1, Option.getD_none]
      rw [alookup_aset_self]
      rfl

theorem session_present_iff_members_witness :
    StoreInv (⟨[], []⟩ : ServerState) ∧
    alookup (joinDrawing ⟨[], []⟩ "a" "r" (some "n")).1.rooms "r"
      = some ⟨[⟨"a", resolveName "a" (some "n"), pickColor 0⟩], []⟩ := by
  have h0 : StoreInv (⟨[], []⟩ : ServerState) := by
    unfold StoreInv RoomsInv
    intro d room hd
    simp [alookup] at hd
  exact ⟨h0, (session_present_iff_members ⟨[], []⟩ h0).2.2 "a" "r" (some "n") rfl⟩

/-- C3 as stated is false: socket `a` is the sole member of room `r` (one
member, log `[exA1]`); a further join by `a` to `r` — a connection, so
covered by the claim's "for every connection" — leaves the room with one
member, not two, and resets the log instead of preserving it, because the
handler first removes the joiner from its previous room (destroying the
then-empty room) before re-adding it. -/
theorem join_existing_adds_member_cex :
    alookup exSolo.rooms "r" = some ⟨[exUserA], [exA1]⟩ ∧
    (alookup (joinDrawing exSolo "a" "r" (some "Alice")).1.rooms "r").map
        (fun room => room.users.length) = some 1 ∧
    some (1 : Nat) ≠ some 2 ∧
    (alookup (joinDrawing exSolo "a" "r" (some "Alice")).1.rooms "r").map
        (fun room => room.strokes) = some [] ∧
    some ([] : List StrokeEntry) ≠ some [exA1] :=
  ⟨rfl, by decide, by decide, by decide, by decide⟩

/-- C3 amended: for a connection whose current session is not the target
id, a join to a previously-unseen session id creates it with exactly one
member, and a join to an existing session with N members yields N+1
members with the log unchanged. -/
theorem join_creates_or_joins (st : ServerState) (sid d : String)
    (uname : Option String) (h : alookup st.socketRooms sid ≠ some d) :
    (alookup st.rooms d = none →
      alookup (joinDrawing st sid d uname).1.rooms d
        = some ⟨[⟨sid, resolveName sid uname, pickColor 0⟩], []⟩) ∧
    (∀ room, alookup st.rooms d = some room →
      alookup (joinDrawing st sid d uname).1.rooms d
        = some ⟨room.users ++
                  [⟨sid, resolveName sid uname, pickColor room.users.length⟩],
                room.strokes⟩ ∧
      (room.users ++
          [(⟨sid, resolveName sid uname, pickColor room.users.length⟩ : User)]).length
        = room.users.length + 1) := by
  have hj := joinDrawing_lookup_target st sid d uname h
  constructor
  · intro hnone
    simp only [hnone, Option.getD_none] at hj
    simpa using hj
  · intro room hm
    simp only [hm, Option.getD_some] at hj
    exact ⟨hj, by simp⟩

theorem join_creates_or_joins_witness :
    alookup (exState []).socketRooms "c" ≠ some "r" ∧
    alookup (joinDrawing (exState []) "c" "r" (some "Carol")).1.rooms "r"
      = some ⟨[exUserA, exUserB] ++
                [⟨"c", resolveName "c" (some "Carol"), pickColor 2⟩], []⟩ :=
  ⟨by decide,
   ((join_creates_or_joins (exState []) "c" "r" (some "Carol") (by decide)).2
       ⟨[exUserA, exUserB], []⟩ rfl).1⟩

/-- C4 as stated is false: socket `a` is the sole member of room `r` and
its log is `[exA1]`; a repeated join by `a` to `r` leaves the member count
at one but empties the log, because the handler removes `a` from `r`
first, which destroys the room, and then recreates it empty. -/
theorem rejoin_idempotent_cex :
    alookup exSolo.rooms "r" = some ⟨[exUserA], [exA1]⟩ ∧
    alookup exSolo.socketRooms "a" = some "r" ∧
    (alookup (joinDrawing exSolo "a" "r" (some "Alice")).1.rooms "r").map
        (fun room => room.strokes) = some [] ∧
    some ([] : List StrokeEntry) ≠ some [exA1] :=
  ⟨rfl, rfl, by decide, by decide⟩

/-- C4 amended: a repeated join by a current member leaves the member
count unchanged and delivers a fresh `room-state` snapshot to the joiner;
the operation log is preserved when at least one other member remains, but
a sole member's re-join destroys and recreates the session, resetting the
log. -/
theorem rejoin_preserves_count (st : ServerState) (sid d : String)
    (uname : Option String) (room : Room)
    (hm : alookup st.rooms d = some room)
    (hsr : alookup st.socketRooms sid = some d)
    (hmem : ∃ u ∈ room.users, u.id = sid) :
    ∃ room', alookup (joinDrawing st sid d uname).1.rooms d = some room' ∧
      room'.users.length = room.users.length ∧
      (∀ u, room.users = [u] → room'.strokes = []) ∧
      (2 ≤ room.users.length → room'.strokes = room.strokes) ∧
      ∃ em ∈ (joinDrawing st sid d uname).2,
        em.recipients = [sid] ∧ em.event = SEvent.roomState room'.users room'.strokes := by
  obtain ⟨u₀, hu₀, hid₀⟩ := hmem
  rcases hf : room.users.find? (fun u => u.id == sid) with _ | user
  · exfalso
    have := List.find?_eq_none.mp hf u₀ hu₀
    simp [hid₀] at this
  · have hrm := rufr_eq_found st.rooms d sid room user hm hf
    have hlen : (room.users.eraseP (fun u => u.id == sid)).length + 1
        = room.users.length :=
      List.length_eraseP_add_one hu₀ (by simp [hid₀])
    by_cases hemp : (room.users.eraseP (fun u => u.id == sid)).isEmpty
    · have hnone : alookup (removeUserFromRoom st.rooms d sid).1 d = none := by
        rw [hrm, if_pos hemp]
        exact alookup_aerase_self st.rooms d
      have hnil : room.users.eraseP (fun u => u.id == sid) = [] := by
        simpa using hemp
      have hlen1 : room.users.length = 1 := by
        rw [hnil] at hlen
        simpa using hlen.symm
      refine ⟨⟨[⟨sid, resolveName sid uname, pickColor 0⟩], []⟩, ?_, ?_, ?_, ?_, ?_⟩
      · rw [joinDrawing_rooms_eq]
        simp only [hsr, hnone, Option.getD_none]
        rw [alookup_aset_self]
        rfl
      · simp [hlen1]
      · intro u _
        rfl
      · intro h2
        exact absurd h2 (by omega)
      · rw [joinDrawing_emits_eq]
        simp only [hsr, hnone, Option.getD_none]
        exact ⟨_, List.mem_append_right _ (List.mem_cons_self _ _), rfl, rfl⟩
    · have hne : room.users.eraseP (fun u => u.id == sid) ≠ [] := by
        intro hc
        rw [hc] at hemp
        simp at hemp
      have hsome : alookup (removeUserFromRoom st.rooms d sid).1 d
          = some { room with users := room.users.eraseP (fun u => u.id == sid) } := by
        rw [hrm, if_neg hemp]
        exact alookup_aset_self st.rooms d _
      refine ⟨⟨room.users.eraseP (fun u => u.id == sid) ++
          [⟨sid, resolveName sid uname,
            pickColor (room.users.eraseP (fun u => u.id == sid)).length⟩],
          room.strokes⟩, ?_, ?_, ?_, ?_, ?_⟩
      · rw [joinDrawing_rooms_eq]
        simp only [hsr, hsome, Option.getD_some]
        rw [alookup_aset_self]
      · simp only [List.length_append, List.length_singleton]
        omega
      · intro u hu
        exfalso
        apply hne
        have huu : u₀ = u := by
          rw [hu] at hu₀
          simpa using hu₀
        rw [hu, ← huu]
        simp [List.eraseP_cons, hid₀]
      · intro _
        rfl
      · rw [joinDrawing_emits_eq]
        simp only [hsr, hsome, Option.getD_some]
        exact ⟨_, List.mem_append_right _ (List.mem_cons_self _ _), rfl, rfl⟩

theorem rejoin_preserves_count_witness :
    alookup (exState [exA1]).rooms "r" = some ⟨[exUserA, exUserB], [exA1]⟩ ∧
    alookup (exState [exA1]).socketRooms "a" = some "r" ∧
    (∃ u ∈ ([exUserA, exUserB] : List User), u.id = "a") ∧
    ∃ room', alookup (joinDrawing (exState [exA1]) "a" "r" (some "Alice")).1.rooms "r"
        = some room' ∧
      room'.users.length = ([exUserA, exUserB] : List User).length ∧
      (∀ u, ([exUserA, exUserB] : List User) = [u] → room'.strokes = []) ∧
      (2 ≤ ([exUserA, exUserB] : List User).length → room'.strokes = [exA1]) ∧
      ∃ em ∈ (joinDrawing (exState [exA1]) "a" "r" (some "Alice")).2,
        em.recipients = ["a"] ∧ em.event = SEvent.roomState room'.users room'.strokes :=
  ⟨rfl, rfl, by decide,
   rejoin_preserves_count (exState [exA1]) "a" "r" (some "Alice")
     ⟨[exUserA, exUserB], [exA1]⟩ rfl rfl (by decide)⟩
